import Mathlib

/-!
Verification of the dpkg-builder repository: a shallow embedding of the
final iteration of the tool (link classification, URL resolution, the
idempotent download manager and the extraction invoker) together with the
intermediate iteration's link filter, and proofs of the specified
properties over that embedding.

Go strings are modelled as `List Char`; the filesystem is modelled as the
set of existing paths (a list); the network is modelled by an oracle
giving the outcome of each HTTP GET; `log.Fatalf` sites are modelled by a
`fatal` flag (once set, the pipeline stops, as the Go process terminates).
The build is modelled for the Linux target, where `filepath.Separator`
is `/` and `filepath.FromSlash` is the identity.
-/

namespace DpkgBuilder

/-- Go strings, modelled as lists of characters. -/
abbrev Str := List Char

/-- Model of `strings.HasSuffix s suffix` from the Go standard library:
true when `suffix` is a suffix of `s`. -/
def hasSuffix (s sfx : Str) : Bool := sfx.isSuffixOf s

/-- Model of `strings.LastIndex(s, string(ch))` for a one-character needle:
the index of the last occurrence of `ch` in `s`, or `-1` when absent. -/
def goLastIndexChar (s : Str) (ch : Char) : Int :=
  match s with
  | [] => -1
  | c :: rest =>
    let r := goLastIndexChar rest ch
    if r ≥ 0 then r + 1
    else if c = ch then 0 else -1

/-- The `.dsc` suffix recognised by the classifier (part_001 line 37). -/
def dscSuffix : Str := ".dsc".toList

/-- The `.orig.tar.xz` suffix recognised by the classifier (part_001 line 39). -/
def origXzSuffix : Str := ".orig.tar.xz".toList

/-- The `.orig.tar.gz` suffix recognised by the classifier (part_001 line 39). -/
def origGzSuffix : Str := ".orig.tar.gz".toList

/-- The `.debian.tar.xz` suffix recognised by the classifier (part_001 line 41). -/
def debianSuffix : Str := ".debian.tar.xz".toList

/-- Model of a Go `net/url.URL` value.  The `opq` field models the Go
`Opaque` field; `path` holds the escaped path (`EscapedPath`). -/
structure GoURL where
  scheme : Str := []
  opq : Str := []
  user : Option Str := none
  host : Str := []
  path : Str := []
  forceQuery : Bool := false
  rawQuery : Str := []
  fragment : Str := []
deriving Repr, DecidableEq

/-- Model of `url.URL.IsAbs`: a URL is absolute when its scheme is nonempty. -/
def isAbs (u : GoURL) : Bool := decide (u.scheme ≠ [])

/-- Inner loop of path resolution: RFC 3986 `remove_dot_segments` over a
list of path segments, pushing resolved segments onto an accumulator
(held in reverse order).  A trailing `.` or `..` leaves a trailing
slash, represented by a trailing empty segment. -/
def rdsLoop : List Str → List Str → List Str
  | [], acc => acc
  | [s], acc =>
    if s = ['.'] then [] :: acc
    else if s = ['.', '.'] then [] :: acc.drop 1
    else s :: acc
  | s :: rest, acc =>
    if s = ['.'] then rdsLoop rest acc
    else if s = ['.', '.'] then rdsLoop rest (acc.drop 1)
    else rdsLoop rest (s :: acc)

/-- Model of `net/url`'s `resolvePath(base, ref)`: merge the reference
path with the base path (RFC 3986 section 5.3 merge) and normalise `.`
and `..` segments (`remove_dot_segments`); the result is always rooted.
Modelled from the Go standard library, which the repository calls
through `URL.ResolveReference`. -/
def resolvePath (base ref : Str) : Str :=
  let full :=
    if ref = [] then base
    else if ref.head? ≠ some '/' then
      base.take ((goLastIndexChar base '/' + 1).toNat) ++ ref
    else ref
  if full = [] then []
  else
    let segs0 := full.splitOn '/'
    let segs := if full.head? = some '/' then segs0.drop 1 else segs0
    '/' :: List.intercalate ['/'] (rdsLoop segs []).reverse

/-- Model of `url.URL.ResolveReference(ref)` from the Go standard
library, resolving `ref` against the base URL `u` per the generic URI
resolution algorithm of RFC 3986. -/
def resolveReference (u ref : GoURL) : GoURL :=
  let url1 := if ref.scheme = [] then { ref with scheme := u.scheme } else ref
  if ref.scheme ≠ [] ∨ ref.host ≠ [] ∨ ref.user ≠ none then
    { url1 with path := resolvePath ref.path [] }
  else if ref.opq ≠ [] then
    { url1 with user := none, host := [], path := [] }
  else
    let url2 :=
      if ref.path = [] ∧ ¬ ref.forceQuery ∧ ref.rawQuery = [] then
        { url1 with rawQuery := u.rawQuery }
      else url1
    { url2 with host := u.host, user := u.user, path := resolvePath u.path ref.path }

/-- Model of `filepath.FromSlash` on the Linux target, where the path
separator is `/`: the identity function. -/
def fromSlash (p : Str) : Str := p

/-- Model of `path/filepath.Clean` on the Linux target: drop empty and
`.` segments, cancel `..` against a preceding segment (eliding leading
`..` in rooted paths), and return `.` for an empty result. -/
def cleanPath (p : Str) : Str :=
  if p = [] then ['.']
  else
    let rooted := p.head? = some '/'
    let segs := (p.splitOn '/').filter (fun s => s ≠ [] ∧ s ≠ ['.'])
    let out := segs.foldl
      (fun acc s =>
        if s = ['.', '.'] then
          match acc with
          | t :: rest => if t = ['.', '.'] then s :: t :: rest else rest
          | [] => if rooted then [] else [s]
        else s :: acc) []
    let body := List.intercalate ['/'] out.reverse
    if rooted then '/' :: body
    else if body = [] then ['.']
    else body

/-- Model of `filepath.Join(a, b)` from the Go standard library: join the
elements with the separator, skipping leading empty elements, and clean
the result; the join of two empty elements is empty. -/
def goJoin (a b : Str) : Str :=
  if a = [] then
    if b = [] then [] else cleanPath b
  else cleanPath (a ++ '/' :: b)

/-- Model of `filepath.Split(p)`: the pair of the directory part (up to
and including the last separator) and the file-name part (after the last
separator). -/
def filepathSplit (p : Str) : Str × Str :=
  let i := goLastIndexChar p '/'
  (p.take ((i + 1).toNat), p.drop ((i + 1).toNat))

/-- Specification-side reading of the destination file name: the text
after the last `/` in a path, i.e. the maximal trailing run of
non-separator characters. -/
def afterLastSlash (s : Str) : Str := s.rtakeWhile (fun c => c ≠ '/')

/-- Filesystem state, modelled as the set (list) of existing paths. -/
abbrev FS := List Str

/-- Model of the repository's `fileExists` (part_001 lines 243-245):
`os.Stat` succeeds exactly when the path exists. -/
def fileExists (fs : FS) (p : Str) : Bool := decide (p ∈ fs)

/-- Model of `os.Create`: the path comes to exist (truncated/empty). -/
def createFile (fs : FS) (p : Str) : FS := p :: fs

/-- Model of the repository's `ensureDirExists` (part_001 lines 234-241):
create the directory when it does not exist (creation is modelled as
always succeeding). -/
def ensureDirExists (fs : FS) (dir : Str) : FS :=
  if fileExists fs dir then fs else dir :: fs

/-- Outcome of one HTTP GET, an oracle for the external network: the
request either succeeds with the body streamed in full, or fails
somewhere during the GET or the body copy. -/
inductive NetResult where
  | ok
  | fail
deriving Repr, DecidableEq

/-- Model of the repository's `buildPath` (part_001 lines 227-232):
the parent directory is the package name, and the file name is the part
of the URL path after its last `/` (via `strings.LastIndex`); the
destination path joins the two.  Returns `(path, parentDir)`. -/
def buildPath (u : GoURL) (pkg : Str) : Str × Str :=
  (goJoin (fromSlash pkg)
      (fromSlash (u.path.drop ((goLastIndexChar u.path '/' + 1).toNat))),
    fromSlash pkg)

/-- Result of one `download` call: the returned path, the filesystem
afterwards, the number of HTTP GETs issued, and whether a fatal
`log.Fatalf` was reached. -/
structure DownloadOut where
  path : Str
  fs : FS
  fetches : Nat
  fatal : Bool
deriving Repr, DecidableEq

/-- Model of the repository's `download` (part_001 lines 198-225): build
the destination path, ensure the package directory exists, skip the
network entirely when the destination already exists, and otherwise
create the file and stream the GET response into it; a GET or copy
failure is fatal and performs no cleanup of the created file. -/
def download (net : GoURL → NetResult) (u : GoURL) (pkgName : Str) (fs : FS) :
    DownloadOut :=
  if fileExists (ensureDirExists fs (buildPath u pkgName).2) (buildPath u pkgName).1 then
    { path := (buildPath u pkgName).1, fs := ensureDirExists fs (buildPath u pkgName).2,
      fetches := 0, fatal := false }
  else
    match net u with
    | NetResult.ok =>
      { path := (buildPath u pkgName).1,
        fs := createFile (ensureDirExists fs (buildPath u pkgName).2) (buildPath u pkgName).1,
        fetches := 1, fatal := false }
    | NetResult.fail =>
      { path := (buildPath u pkgName).1,
        fs := createFile (ensureDirExists fs (buildPath u pkgName).2) (buildPath u pkgName).1,
        fetches := 1, fatal := true }

/-- Model of the `dpkgSrc` struct (part_001 lines 25-32).  Go's zero
values (empty strings, nil pointer) are the field defaults; an absent
role is an empty href. -/
structure dpkgSrc where
  Name : Str := []
  DSC : Str := []
  Orig : Str := []
  Debian : Str := []
  BaseURL : Option GoURL := none
  DscPath : Str := []
deriving Repr, DecidableEq

/-- One iteration of the classifier loop in `fillFromLinks` (part_001
lines 35-44): the switch assigns the href to the first matching suffix
rule, or leaves the struct unchanged. -/
def fillStep (d : dpkgSrc) (l : Str) : dpkgSrc :=
  if hasSuffix l dscSuffix then { d with DSC := l }
  else if hasSuffix l origXzSuffix || hasSuffix l origGzSuffix then { d with Orig := l }
  else if hasSuffix l debianSuffix then { d with Debian := l }
  else d

/-- Model of `(*dpkgSrc).fillFromLinks` (part_001 lines 34-45): iterate
the switch over the hrefs in document order. -/
def fillFromLinks (d : dpkgSrc) (links : List Str) : dpkgSrc :=
  match links with
  | [] => d
  | l :: rest => fillFromLinks (fillStep d l) rest

/-- Model of the intermediate iteration's `filterLinks` (part_000 lines
132-144): keep the hrefs matching one of the three suffix rules, in
order (the Go loop appends each kept href to an accumulator). -/
def filterLinks (links : List Str) : List Str :=
  match links with
  | [] => []
  | l :: rest =>
    if hasSuffix l dscSuffix then l :: filterLinks rest
    else if hasSuffix l origXzSuffix || hasSuffix l origGzSuffix then l :: filterLinks rest
    else if hasSuffix l debianSuffix then l :: filterLinks rest
    else filterLinks rest

/-- Condition under which the final iteration's classifier switch
matches an href at all: the disjunction of the three suffix rules. -/
def matchesRole (l : Str) : Bool :=
  hasSuffix l dscSuffix || (hasSuffix l origXzSuffix || hasSuffix l origGzSuffix)
    || hasSuffix l debianSuffix

/-- Result of the `fetch` method: the struct afterwards (`DscPath` may
have been set), the filesystem, the resolved URLs in download order, the
`(url, pkgName)` arguments of each `download` call in order, the total
number of HTTP GETs issued by the downloads, and whether a fatal exit
was reached (URL parse error, nil base dereference, or download
failure). -/
structure FetchOut where
  d : dpkgSrc
  fs : FS
  urls : List GoURL
  calls : List (GoURL × Str)
  fetches : Nat
  fatal : Bool
deriving Repr, DecidableEq

/-- Loop body of `(*dpkgSrc).fetch` (part_001 lines 49-62): parse each
href (parsing is the external `url.Parse`, supplied as an oracle),
resolve it against `BaseURL` when it is not absolute, download it, and
record the download's path in `DscPath` when the href equals the `DSC`
field.  A parse failure, a nil `BaseURL` dereference or a download
failure terminates the loop fatally. -/
def fetchLoop (parse : Str → Option GoURL) (net : GoURL → NetResult)
    (links : List Str) (d : dpkgSrc) (fs : FS)
    (urls : List GoURL) (calls : List (GoURL × Str)) (fetches : Nat) : FetchOut :=
  match links with
  | [] => { d := d, fs := fs, urls := urls, calls := calls, fetches := fetches, fatal := false }
  | l :: rest =>
    match parse l with
    | none =>
      { d := d, fs := fs, urls := urls, calls := calls, fetches := fetches, fatal := true }
    | some lu =>
      let ru? : Option GoURL :=
        if isAbs lu then some lu
        else
          match d.BaseURL with
          | some b => some (resolveReference b lu)
          | none => none
      match ru? with
      | none =>
        { d := d, fs := fs, urls := urls, calls := calls, fetches := fetches, fatal := true }
      | some ru =>
        let out := download net ru d.Name fs
        if out.fatal then
          { d := d, fs := out.fs, urls := urls ++ [ru], calls := calls ++ [(ru, d.Name)],
            fetches := fetches + out.fetches, fatal := true }
        else
          let d' := if l = d.DSC then { d with DscPath := out.path } else d
          fetchLoop parse net rest d' out.fs (urls ++ [ru]) (calls ++ [(ru, d.Name)])
            (fetches + out.fetches)

/-- Model of `(*dpkgSrc).fetch` (part_001 lines 47-63): the links list
is built first, in the order description file, Debian-diff archive,
original-source archive, then each is resolved and downloaded. -/
def fetchGo (parse : Str → Option GoURL) (net : GoURL → NetResult)
    (d : dpkgSrc) (fs : FS) : FetchOut :=
  fetchLoop parse net [d.DSC, d.Debian, d.Orig] d fs [] [] 0

/-- Invocation of the external extraction tool: executable name,
arguments and working directory. -/
structure ExtractCmd where
  tool : Str
  args : List Str
  dir : Str
deriving Repr, DecidableEq

/-- Model of `(*dpkgSrc).extract` (part_001 lines 65-91): split the
file-name portion out of `DscPath` and invoke `dpkg-source -x
--no-check <file>` with the working directory set to the package
directory.  The method is unconditional: it always produces an
invocation. -/
def extractCmd (d : dpkgSrc) : ExtractCmd :=
  { tool := "dpkg-source".toList
    args := ["-x".toList, "--no-check".toList, (filepathSplit d.DscPath).2]
    dir := fromSlash d.Name }

/-- Parse of the constant `debianTestingBaseURL`
(`https://packages.debian.org/buster/`, part_001 line 23). -/
def debianBase : GoURL :=
  { scheme := "https".toList
    host := "packages.debian.org".toList
    path := "/buster/".toList }

/-- Model of `validateArgs` (part_001 lines 159-166): return the first
positional argument and whether one was present. -/
def validateArgs (args : List Str) : Str × Bool :=
  if 0 < args.length then (args.headD [], true) else ([], false)

/-- Model of `commandBuild` (part_001 lines 117-126): validate the
package-name argument and return a reported (non-fatal) error when it
is missing; otherwise only log.  The error string is taken verbatim
from the source. -/
def commandBuild (args : List Str) : Except Str Unit :=
  let v := validateArgs args
  if v.2 then Except.ok ()
  else Except.error ("fetch: no package name provided".toList)

/-- Result of `commandFetch`: the returned error or success, the number
of network operations performed (the index-page GET plus every download
GET), the fetch result and the extraction invocation when those stages
were reached, and whether a fatal exit occurred. -/
structure CmdFetchOut where
  result : Except Str Unit
  netOps : Nat
  fetchOut : Option FetchOut
  extractInvoked : Option ExtractCmd
  fatal : Bool
deriving Repr

/-- Model of `commandFetch` (part_001 lines 128-157): validate the
package-name argument (returning a reported error, with no network
access, when it is missing); then GET the index page (one network
operation; its body's anchor hrefs are the `pageLinks` oracle), build a
fresh `dpkgSrc`, classify the links, set the name and base URL, run the
fetch loop and finally the extraction invoker. -/
def commandFetch (pageLinks : List Str) (parse : Str → Option GoURL)
    (net : GoURL → NetResult) (fs : FS) (args : List Str) : CmdFetchOut :=
  let v := validateArgs args
  if v.2 then
    let dp1 := fillFromLinks {} pageLinks
    let dp2 := { dp1 with Name := v.1, BaseURL := some debianBase }
    let fo := fetchGo parse net dp2 fs
    if fo.fatal then
      { result := Except.ok (), netOps := 1 + fo.fetches, fetchOut := some fo,
        extractInvoked := none, fatal := true }
    else
      { result := Except.ok (), netOps := 1 + fo.fetches, fetchOut := some fo,
        extractInvoked := some (extractCmd fo.d), fatal := false }
  else
    { result := Except.error ("fetch: no package name provided".toList), netOps := 0,
      fetchOut := none, extractInvoked := none, fatal := false }

/-! ## Helper lemmas -/

theorem hasSuffix_iff {l s : Str} : hasSuffix l s = true ↔ s <:+ l := by
  simp [hasSuffix]

theorem suffix_pair_excl {l a b : Str} (ha : hasSuffix l a = true)
    (hb : hasSuffix l b = true) (hab : ¬ a <:+ b) (hba : ¬ b <:+ a) : False := by
  rw [hasSuffix_iff] at ha hb
  rcases List.suffix_or_suffix_of_suffix ha hb with h | h
  · exact hab h
  · exact hba h

theorem origXz_not_dsc {l : Str} (h : hasSuffix l origXzSuffix = true) :
    hasSuffix l dscSuffix = false := by
  cases hc : hasSuffix l dscSuffix with
  | false => rfl
  | true => exact absurd (suffix_pair_excl h hc (by decide) (by decide)) not_false

theorem origGz_not_dsc {l : Str} (h : hasSuffix l origGzSuffix = true) :
    hasSuffix l dscSuffix = false := by
  cases hc : hasSuffix l dscSuffix with
  | false => rfl
  | true => exact absurd (suffix_pair_excl h hc (by decide) (by decide)) not_false

theorem debian_not_dsc {l : Str} (h : hasSuffix l debianSuffix = true) :
    hasSuffix l dscSuffix = false := by
  cases hc : hasSuffix l dscSuffix with
  | false => rfl
  | true => exact absurd (suffix_pair_excl h hc (by decide) (by decide)) not_false

theorem debian_not_origXz {l : Str} (h : hasSuffix l debianSuffix = true) :
    hasSuffix l origXzSuffix = false := by
  cases hc : hasSuffix l origXzSuffix with
  | false => rfl
  | true => exact absurd (suffix_pair_excl h hc (by decide) (by decide)) not_false

theorem debian_not_origGz {l : Str} (h : hasSuffix l debianSuffix = true) :
    hasSuffix l origGzSuffix = false := by
  cases hc : hasSuffix l origGzSuffix with
  | false => rfl
  | true => exact absurd (suffix_pair_excl h hc (by decide) (by decide)) not_false

theorem fillStep_dsc (d : dpkgSrc) {l : Str} (h : hasSuffix l dscSuffix = true) :
    fillStep d l = { d with DSC := l } := by
  simp [fillStep, h]

theorem fillStep_orig (d : dpkgSrc) {l : Str}
    (h : hasSuffix l origXzSuffix = true ∨ hasSuffix l origGzSuffix = true) :
    fillStep d l = { d with Orig := l } := by
  rcases h with h | h
  · simp [fillStep, origXz_not_dsc h, h]
  · simp [fillStep, origGz_not_dsc h, h]

theorem fillStep_debian (d : dpkgSrc) {l : Str} (h : hasSuffix l debianSuffix = true) :
    fillStep d l = { d with Debian := l } := by
  simp [fillStep, debian_not_dsc h, debian_not_origXz h, debian_not_origGz h, h]

theorem fillStep_noMatch (d : dpkgSrc) {l : Str} (h : matchesRole l = false) :
    fillStep d l = d := by
  simp only [matchesRole, Bool.or_eq_false_iff] at h
  simp [fillStep, h.1.1, h.1.2.1, h.1.2.2, h.2]

theorem getLast?_getD_cons (a : α) (xs : List α) (dflt : α) :
    ((a :: xs).getLast?).getD dflt = (xs.getLast?).getD a := by
  cases xs with
  | nil => rfl
  | cons b ys =>
    have hx := List.getLast?_eq_getLast (b :: ys) (by simp)
    simp [List.getLast?_cons_cons, hx]

/-! ## Claims about the classifier -/

/-- C1: for every href in the input list, `fillFromLinks` assigns it to
the description role when it ends with `.dsc`, to the original-source
role when it ends with `.orig.tar.xz` or `.orig.tar.gz`, to the
Debian-diff role when it ends with `.debian.tar.xz`, and to no role
otherwise; each href matches at most one rule, hrefs matching no suffix
leave all three role assignments unchanged, and an empty input list
leaves all three roles absent (the empty string, Go's zero value). -/
theorem claim1_classifier_assignment :
    (∀ (d : dpkgSrc) (l : Str),
      (hasSuffix l dscSuffix = true → fillStep d l = { d with DSC := l }) ∧
      ((hasSuffix l origXzSuffix = true ∨ hasSuffix l origGzSuffix = true) →
        fillStep d l = { d with Orig := l }) ∧
      (hasSuffix l debianSuffix = true → fillStep d l = { d with Debian := l }) ∧
      (matchesRole l = false → fillStep d l = d) ∧
      ¬ (hasSuffix l dscSuffix = true ∧
          (hasSuffix l origXzSuffix = true ∨ hasSuffix l origGzSuffix = true)) ∧
      ¬ (hasSuffix l dscSuffix = true ∧ hasSuffix l debianSuffix = true) ∧
      ¬ ((hasSuffix l origXzSuffix = true ∨ hasSuffix l origGzSuffix = true) ∧
          hasSuffix l debianSuffix = true)) ∧
    (∀ d : dpkgSrc, fillFromLinks d [] = d) ∧
    (fillFromLinks {} []).DSC = [] ∧ (fillFromLinks {} []).Orig = [] ∧
    (fillFromLinks {} []).Debian = [] := by
  refine ⟨fun d l => ⟨fillStep_dsc d, fillStep_orig d, fillStep_debian d,
    fillStep_noMatch d, ?_, ?_, ?_⟩, fun d => rfl, rfl, rfl, rfl⟩
  · rintro ⟨h1, h2 | h2⟩
    · exact absurd h1 (by simp [origXz_not_dsc h2])
    · exact absurd h1 (by simp [origGz_not_dsc h2])
  · rintro ⟨h1, h2⟩
    exact absurd h1 (by simp [debian_not_dsc h2])
  · rintro ⟨h1 | h1, h2⟩
    · exact absurd h1 (by simp [debian_not_origXz h2])
    · exact absurd h1 (by simp [debian_not_origGz h2])

/-- Witness for C1: the classifier evaluated at concrete hrefs of each
kind, with every hypothesis discharged by computation. -/
theorem claim1_classifier_assignment_witness :
    fillStep {} ("pkg_1.0.dsc".toList) = { ({} : dpkgSrc) with DSC := "pkg_1.0.dsc".toList } ∧
    fillStep {} ("pkg_1.0.orig.tar.gz".toList) =
      { ({} : dpkgSrc) with Orig := "pkg_1.0.orig.tar.gz".toList } ∧
    fillStep {} ("pkg_1.0.debian.tar.xz".toList) =
      { ({} : dpkgSrc) with Debian := "pkg_1.0.debian.tar.xz".toList } ∧
    fillStep {} ("changelog".toList) = ({} : dpkgSrc) :=
  ⟨(claim1_classifier_assignment.1 {} _).1 (by decide),
   (claim1_classifier_assignment.1 {} _).2.1 (Or.inr (by decide)),
   (claim1_classifier_assignment.1 {} _).2.2.1 (by decide),
   (claim1_classifier_assignment.1 {} _).2.2.2.1 (by decide)⟩

/-- C3: for every href list, each role retains exactly the href that
appears last in document order among those matching that role's suffix
rule, falling back to the prior field value (no error is raised; the
classifier is total). -/
theorem claim3_last_match_wins (links : List Str) (d : dpkgSrc) :
    (fillFromLinks d links).DSC =
      ((links.filter (fun l => hasSuffix l dscSuffix)).getLast?).getD d.DSC ∧
    (fillFromLinks d links).Orig =
      ((links.filter (fun l =>
        hasSuffix l origXzSuffix || hasSuffix l origGzSuffix)).getLast?).getD d.Orig ∧
    (fillFromLinks d links).Debian =
      ((links.filter (fun l => hasSuffix l debianSuffix)).getLast?).getD d.Debian := by
  induction links generalizing d with
  | nil => exact ⟨rfl, rfl, rfl⟩
  | cons l rest ih =>
    have step : fillFromLinks d (l :: rest) = fillFromLinks (fillStep d l) rest := rfl
    cases h1 : hasSuffix l dscSuffix with
    | true =>
      have hxz := origXz_not_dsc (l := l)
      have hgz := origGz_not_dsc (l := l)
      have hdb := debian_not_dsc (l := l)
      have h2 : hasSuffix l origXzSuffix = false := by
        cases hc : hasSuffix l origXzSuffix with
        | false => rfl
        | true => rw [hxz hc] at h1; exact absurd h1 (by simp)
      have h3 : hasSuffix l origGzSuffix = false := by
        cases hc : hasSuffix l origGzSuffix with
        | false => rfl
        | true => rw [hgz hc] at h1; exact absurd h1 (by simp)
      have h4 : hasSuffix l debianSuffix = false := by
        cases hc : hasSuffix l debianSuffix with
        | false => rfl
        | true => rw [hdb hc] at h1; exact absurd h1 (by simp)
      rw [step, fillStep_dsc d h1]
      refine ⟨?_, ?_, ?_⟩
      · rw [(ih _).1]
        simp [h1, List.filter_cons, getLast?_getD_cons]
      · rw [(ih _).2.1]
        simp [h2, h3, List.filter_cons]
      · rw [(ih _).2.2]
        simp [h4, List.filter_cons]
    | false =>
      cases h2 : (hasSuffix l origXzSuffix || hasSuffix l origGzSuffix) with
      | true =>
        have horig : hasSuffix l origXzSuffix = true ∨ hasSuffix l origGzSuffix = true := by
          rcases Bool.or_eq_true_iff.mp h2 with h | h
          · exact Or.inl h
          · exact Or.inr h
        have h4 : hasSuffix l debianSuffix = false := by
          cases hc : hasSuffix l debianSuffix with
          | false => rfl
          | true =>
            rcases horig with h | h
            · rw [debian_not_origXz hc] at h; exact absurd h (by simp)
            · rw [debian_not_origGz hc] at h; exact absurd h (by simp)
        rw [step, fillStep_orig d horig]
        refine ⟨?_, ?_, ?_⟩
        · rw [(ih _).1]
          simp [h1, List.filter_cons]
        · rw [(ih _).2.1]
          simp [List.filter_cons, h2, getLast?_getD_cons]
        · rw [(ih _).2.2]
          simp [h4, List.filter_cons]
      | false =>
        have hxz : hasSuffix l origXzSuffix = false := by
          rcases Bool.or_eq_false_iff.mp h2 with ⟨h, _⟩
          exact h
        have hgz : hasSuffix l origGzSuffix = false := by
          rcases Bool.or_eq_false_iff.mp h2 with ⟨_, h⟩
          exact h
        cases h4 : hasSuffix l debianSuffix with
        | true =>
          rw [step, fillStep_debian d h4]
          refine ⟨?_, ?_, ?_⟩
          · rw [(ih _).1]
            simp [h1, List.filter_cons]
          · rw [(ih _).2.1]
            simp [List.filter_cons, h2]
          · rw [(ih _).2.2]
            simp [h4, List.filter_cons, getLast?_getD_cons]
        | false =>
          have hnm : matchesRole l = false := by
            simp [matchesRole, h1, hxz, hgz, h4]
          rw [step, fillStep_noMatch d hnm]
          refine ⟨?_, ?_, ?_⟩
          · rw [(ih _).1]
            simp [h1, List.filter_cons]
          · rw [(ih _).2.1]
            simp [List.filter_cons, h2]
          · rw [(ih _).2.2]
            simp [h4, List.filter_cons]

/-- C10: the intermediate iteration's `filterLinks` retains an href
exactly when the final iteration's classifier switch matches it — the
two iterations use the same three suffix predicates — and the switch
assigns a matched href to one of the three roles and leaves the struct
unchanged on a non-match. -/
theorem claim10_filterLinks_matches_fillFromLinks :
    (∀ links : List Str, filterLinks links = links.filter matchesRole) ∧
    (∀ (d : dpkgSrc) (l : Str),
      (matchesRole l = false → fillStep d l = d) ∧
      (matchesRole l = true →
        (fillStep d l).DSC = l ∨ (fillStep d l).Orig = l ∨ (fillStep d l).Debian = l)) := by
  constructor
  · intro links
    induction links with
    | nil => rfl
    | cons l rest ih =>
      cases h1 : hasSuffix l dscSuffix <;>
        cases h2 : hasSuffix l origXzSuffix <;>
          cases h3 : hasSuffix l origGzSuffix <;>
            cases h4 : hasSuffix l debianSuffix <;>
              simp [filterLinks, matchesRole, List.filter_cons, h1, h2, h3, h4, ih]
  · intro d l
    constructor
    · exact fillStep_noMatch d
    · intro h
      simp only [matchesRole, Bool.or_eq_true_iff] at h
      rcases h with (h | h) | h
      · exact Or.inl (by rw [fillStep_dsc d h])
      · exact Or.inr (Or.inl (by rw [fillStep_orig d h]))
      · exact Or.inr (Or.inr (by rw [fillStep_debian d h]))

/-- Witness for C10: the filter-versus-switch agreement evaluated at a
concrete href of each kind. -/
theorem claim10_filterLinks_matches_fillFromLinks_witness :
    fillStep {} ("a.dsc".toList) = ({} : dpkgSrc) ∨
      ((fillStep {} ("a.dsc".toList)).DSC = "a.dsc".toList ∨
        (fillStep {} ("a.dsc".toList)).Orig = "a.dsc".toList ∨
        (fillStep {} ("a.dsc".toList)).Debian = "a.dsc".toList) :=
  Or.inr ((claim10_filterLinks_matches_fillFromLinks.2 {} _).2 (by decide))

/-! ## Helper lemmas about `goLastIndexChar` and `afterLastSlash` -/

theorem goLastIndexChar_cases (s : Str) (ch : Char) :
    goLastIndexChar s ch = -1 ∨ 0 ≤ goLastIndexChar s ch := by
  cases s with
  | nil => exact Or.inl rfl
  | cons c rest =>
    simp only [goLastIndexChar]
    by_cases hr : 0 ≤ goLastIndexChar rest ch
    · right
      simp only [ge_iff_le, hr, if_pos]
      omega
    · by_cases hc : c = ch
      · right
        simp [ge_iff_le, hr, hc]
      · left
        simp [ge_iff_le, hr, hc]

theorem goLastIndexChar_nonneg_iff (s : Str) (ch : Char) :
    0 ≤ goLastIndexChar s ch ↔ ch ∈ s := by
  induction s with
  | nil => simp [goLastIndexChar]
  | cons c rest ih =>
    simp only [goLastIndexChar, List.mem_cons]
    by_cases hr : 0 ≤ goLastIndexChar rest ch
    · simp only [ge_iff_le, hr, if_pos]
      constructor
      · intro _
        exact Or.inr (ih.mp hr)
      · intro _
        omega
    · by_cases hc : c = ch
      · simp [ge_iff_le, hr, hc]
      · simp only [ge_iff_le, hr, if_neg, hc, if_false]
        constructor
        · intro h
          omega
        · rintro (h | h)
          · exact absurd h.symm hc
          · exact absurd (ih.mpr h) hr

theorem rtakeWhile_cons_of_bad {p : α → Bool} (c : α) (rest : List α)
    (h : ∃ x ∈ rest, p x = false) :
    (c :: rest).rtakeWhile p = rest.rtakeWhile p := by
  have hne : ¬ ((rest.reverse.takeWhile p).length = rest.reverse.length) := by
    intro hlen
    have hself : rest.reverse.takeWhile p = rest.reverse :=
      (List.takeWhile_prefix p).eq_of_length hlen
    obtain ⟨x, hx, hpx⟩ := h
    have := List.takeWhile_eq_self_iff.mp hself x (by simpa using hx)
    rw [hpx] at this
    exact Bool.false_ne_true this
  show ((c :: rest).reverse.takeWhile p).reverse = (rest.reverse.takeWhile p).reverse
  rw [List.reverse_cons, List.takeWhile_append, if_neg hne]

theorem rtakeWhile_cons_of_good {p : α → Bool} (c : α) (rest : List α)
    (h : ∀ x ∈ rest, p x = true) :
    (c :: rest).rtakeWhile p = if p c then c :: rest else rest := by
  show ((c :: rest).reverse.takeWhile p).reverse = _
  rw [List.reverse_cons,
    List.takeWhile_append_of_pos (by intro a ha; exact h a (by simpa using ha))]
  cases hc : p c with
  | true => simp [List.takeWhile_cons, hc]
  | false => simp [List.takeWhile_cons, hc]

theorem drop_goLastIndexChar_eq_afterLastSlash (s : Str) :
    s.drop ((goLastIndexChar s '/' + 1).toNat) = afterLastSlash s := by
  induction s with
  | nil => rfl
  | cons c rest ih =>
    by_cases hr : 0 ≤ goLastIndexChar rest '/'
    · have hmem : '/' ∈ rest := (goLastIndexChar_nonneg_iff rest '/').mp hr
      have h1 : goLastIndexChar (c :: rest) '/' = goLastIndexChar rest '/' + 1 := by
        simp [goLastIndexChar, ge_iff_le, hr]
      have h2 : afterLastSlash (c :: rest) = afterLastSlash rest := by
        unfold afterLastSlash
        exact rtakeWhile_cons_of_bad c rest ⟨'/', hmem, by simp⟩
      rw [h1, h2, ← ih]
      have h3 : (goLastIndexChar rest '/' + 1 + 1).toNat
          = (goLastIndexChar rest '/' + 1).toNat + 1 := by omega
      rw [h3, List.drop_succ_cons]
    · have hmem : '/' ∉ rest := by
        intro hc
        exact hr ((goLastIndexChar_nonneg_iff rest '/').mpr hc)
      have hrm1 : goLastIndexChar rest '/' = -1 := by
        rcases goLastIndexChar_cases rest '/' with h | h
        · exact h
        · exact absurd h hr
      have hgood : ∀ x ∈ rest, (fun y => decide (y ≠ '/')) x = true := by
        intro x hx
        simp only [decide_eq_true_iff]
        intro hxeq
        exact hmem (hxeq ▸ hx)
      have h2 := rtakeWhile_cons_of_good c rest hgood
      by_cases hc : c = '/'
      · have h1 : goLastIndexChar (c :: rest) '/' = 0 := by
          simp [goLastIndexChar, ge_iff_le, hrm1, hc]
        rw [h1]
        unfold afterLastSlash
        rw [h2, if_neg (by simp [hc])]
        rfl
      · have h1 : goLastIndexChar (c :: rest) '/' = -1 := by
          simp [goLastIndexChar, ge_iff_le, hrm1, hc]
        rw [h1]
        unfold afterLastSlash
        rw [h2, if_pos (by simp [hc])]
        rfl

/-! ## Helper lemmas about the filesystem model and `download` -/

theorem fileExists_ensureDir_self (fs : FS) (dir : Str) :
    fileExists (ensureDirExists fs dir) dir = true := by
  unfold ensureDirExists
  cases h : fileExists fs dir with
  | true => simpa using h
  | false => simp [fileExists]

theorem fileExists_mono (fs : FS) (dir p : Str) (h : fileExists fs p = true) :
    fileExists (ensureDirExists fs dir) p = true := by
  unfold ensureDirExists
  cases hd : fileExists fs dir with
  | true => simpa using h
  | false =>
    simp only [fileExists, decide_eq_true_iff] at h ⊢
    simp [h]

theorem download_path (net : GoURL → NetResult) (u : GoURL) (pkg : Str) (fs : FS) :
    (download net u pkg fs).path = (buildPath u pkg).1 := by
  unfold download
  cases h : fileExists (ensureDirExists fs (buildPath u pkg).2) (buildPath u pkg).1
  · cases net u <;> rfl
  · rfl

theorem download_skip (net : GoURL → NetResult) (u : GoURL) (pkg : Str) (fs : FS)
    (h : fileExists (ensureDirExists fs (buildPath u pkg).2) (buildPath u pkg).1 = true) :
    download net u pkg fs =
      { path := (buildPath u pkg).1, fs := ensureDirExists fs (buildPath u pkg).2,
        fetches := 0, fatal := false } := by
  unfold download
  rw [h]
  rfl

theorem download_fetch (net : GoURL → NetResult) (u : GoURL) (pkg : Str) (fs : FS)
    (h : fileExists (ensureDirExists fs (buildPath u pkg).2) (buildPath u pkg).1 = false) :
    download net u pkg fs =
      { path := (buildPath u pkg).1,
        fs := createFile (ensureDirExists fs (buildPath u pkg).2) (buildPath u pkg).1,
        fetches := 1, fatal := net u = NetResult.fail } := by
  unfold download
  rw [h]
  cases hn : net u <;> simp [hn]

theorem fileExists_download_fs (net : GoURL → NetResult) (u : GoURL) (pkg : Str) (fs : FS) :
    fileExists (download net u pkg fs).fs (buildPath u pkg).1 = true := by
  cases h : fileExists (ensureDirExists fs (buildPath u pkg).2) (buildPath u pkg).1 with
  | true => rw [download_skip net u pkg fs h]; exact h
  | false =>
    rw [download_fetch net u pkg fs h]
    simp [fileExists, createFile]

/-! ## Claims about the download manager -/

/-- C4: when the destination path computed from the URL and the package
name already exists, `download` performs zero network fetches and
returns that existing path; the second of two successive calls for the
same URL and package name always performs zero fetches, and when the
destination did not exist beforehand (not even as the freshly created
package directory) the two calls together perform exactly one network
fetch. -/
theorem claim4_download_idempotent (net : GoURL → NetResult) (u : GoURL) (pkg : Str)
    (fs : FS) (_hnet : net u = NetResult.ok) :
    (fileExists fs (buildPath u pkg).1 = true →
      download net u pkg fs =
        { path := (buildPath u pkg).1, fs := ensureDirExists fs (buildPath u pkg).2,
          fetches := 0, fatal := false }) ∧
    (download net u pkg ((download net u pkg fs).fs)).fetches = 0 ∧
    (fileExists (ensureDirExists fs (buildPath u pkg).2) (buildPath u pkg).1 = false →
      (download net u pkg fs).fetches +
        (download net u pkg ((download net u pkg fs).fs)).fetches = 1) := by
  have hsecond : (download net u pkg ((download net u pkg fs).fs)).fetches = 0 := by
    have h1 : fileExists ((download net u pkg fs).fs) (buildPath u pkg).1 = true :=
      fileExists_download_fs net u pkg fs
    have h2 : fileExists (ensureDirExists ((download net u pkg fs).fs) (buildPath u pkg).2)
        (buildPath u pkg).1 = true := fileExists_mono _ _ _ h1
    rw [download_skip net u pkg _ h2]
  refine ⟨?_, hsecond, ?_⟩
  · intro h
    exact download_skip net u pkg fs (fileExists_mono _ _ _ h)
  · intro h
    have h1 : (download net u pkg fs).fetches = 1 := by
      rw [download_fetch net u pkg fs h]
    rw [h1, hsecond]

/-- Witness for C4: both the pre-existing-file case and the fresh
two-call case evaluated at a concrete URL and package name. -/
theorem claim4_download_idempotent_witness :
    (download (fun _ => NetResult.ok)
        { path := "/buster/a.dsc".toList } ("pkg".toList) ["pkg/a.dsc".toList]).fetches = 0 ∧
    (download (fun _ => NetResult.ok) { path := "/buster/a.dsc".toList } ("pkg".toList)
        ((download (fun _ => NetResult.ok) { path := "/buster/a.dsc".toList }
          ("pkg".toList) []).fs)).fetches = 0 ∧
    (download (fun _ => NetResult.ok)
        { path := "/buster/a.dsc".toList } ("pkg".toList) []).fetches +
      (download (fun _ => NetResult.ok) { path := "/buster/a.dsc".toList } ("pkg".toList)
        ((download (fun _ => NetResult.ok) { path := "/buster/a.dsc".toList }
          ("pkg".toList) []).fs)).fetches = 1 := by
  refine ⟨?_, ?_, ?_⟩
  · rw [(claim4_download_idempotent (fun _ => NetResult.ok)
      { path := "/buster/a.dsc".toList } ("pkg".toList) ["pkg/a.dsc".toList] rfl).1
      (by decide)]
  · exact (claim4_download_idempotent (fun _ => NetResult.ok)
      { path := "/buster/a.dsc".toList } ("pkg".toList) [] rfl).2.1
  · exact (claim4_download_idempotent (fun _ => NetResult.ok)
      { path := "/buster/a.dsc".toList } ("pkg".toList) [] rfl).2.2 (by decide)

/-- C9: when the HTTP GET or the body copy fails after the destination
file has been created, `download` ends fatally, the partially written
destination file is left on disk (the on-disk state differs from the
initial one), and a subsequent call for the same URL and package name
sees the incomplete file, performs zero fetches and returns it without
error. -/
theorem claim9_failed_download_leaves_partial_file (net net' : GoURL → NetResult)
    (u : GoURL) (pkg : Str) (fs : FS) (hnet : net u = NetResult.fail)
    (hex : fileExists (ensureDirExists fs (buildPath u pkg).2) (buildPath u pkg).1 = false) :
    (download net u pkg fs).fatal = true ∧
    fileExists ((download net u pkg fs).fs) ((download net u pkg fs).path) = true ∧
    fileExists fs ((download net u pkg fs).path) = false ∧
    (download net' u pkg ((download net u pkg fs).fs)).fetches = 0 ∧
    (download net' u pkg ((download net u pkg fs).fs)).fatal = false ∧
    (download net' u pkg ((download net u pkg fs).fs)).path = (download net u pkg fs).path := by
  have hfirst := download_fetch net u pkg fs hex
  have hpath : (download net u pkg fs).path = (buildPath u pkg).1 := download_path net u pkg fs
  have hin : fileExists ((download net u pkg fs).fs) (buildPath u pkg).1 = true :=
    fileExists_download_fs net u pkg fs
  have hsecond := download_skip net' u pkg ((download net u pkg fs).fs)
    (fileExists_mono _ _ _ hin)
  refine ⟨?_, ?_, ?_, ?_, ?_, ?_⟩
  · rw [hfirst]
    simp [hnet]
  · rw [hpath]
    exact hin
  · rw [hpath]
    cases hc : fileExists fs (buildPath u pkg).1 with
    | false => rfl
    | true => rw [fileExists_mono _ _ _ hc] at hex; exact hex
  · rw [hsecond]
  · rw [hsecond]
  · rw [hsecond, hpath]

/-- Witness for C9: a failing download at a concrete URL and package
name, starting from an empty filesystem. -/
theorem claim9_failed_download_leaves_partial_file_witness :
    (download (fun _ => NetResult.fail)
        { path := "/buster/a.dsc".toList } ("pkg".toList) []).fatal = true ∧
    (download (fun _ => NetResult.ok) { path := "/buster/a.dsc".toList } ("pkg".toList)
        ((download (fun _ => NetResult.fail) { path := "/buster/a.dsc".toList }
          ("pkg".toList) []).fs)).fetches = 0 :=
  ⟨(claim9_failed_download_leaves_partial_file (fun _ => NetResult.fail)
      (fun _ => NetResult.ok) { path := "/buster/a.dsc".toList } ("pkg".toList) []
      rfl (by decide)).1,
   (claim9_failed_download_leaves_partial_file (fun _ => NetResult.fail)
      (fun _ => NetResult.ok) { path := "/buster/a.dsc".toList } ("pkg".toList) []
      rfl (by decide)).2.2.2.1⟩

/-- C6: for every artifact URL and package name, the destination file
name computed by `buildPath` is the text after the last `/` of the URL
path, and the destination path is the package-name directory joined
with that file name. -/
theorem claim6_buildPath_last_segment (u : GoURL) (pkg : Str) :
    buildPath u pkg =
      (goJoin (fromSlash pkg) (fromSlash (afterLastSlash u.path)), fromSlash pkg) := by
  unfold buildPath
  rw [drop_goLastIndexChar_eq_afterLastSlash]

/-! ## Helper lemmas about the fetch loop -/

theorem download_fatal_ok (net : GoURL → NetResult) (u : GoURL) (pkg : Str) (fs : FS)
    (hnet : net u = NetResult.ok) : (download net u pkg fs).fatal = false := by
  unfold download
  cases h : fileExists (ensureDirExists fs (buildPath u pkg).2) (buildPath u pkg).1 <;>
    simp [h, hnet]

theorem fetchLoop_ok (parse : Str → Option GoURL) (net : GoURL → NetResult)
    (hnet : ∀ u, net u = NetResult.ok) (b : GoURL) (name : Str) :
    ∀ (links : List Str) (us : List GoURL) (d : dpkgSrc) (fs : FS)
      (urls : List GoURL) (calls : List (GoURL × Str)) (fetches : Nat),
      links.map parse = us.map some →
      d.BaseURL = some b → d.Name = name →
      (fetchLoop parse net links d fs urls calls fetches).urls =
        urls ++ us.map (fun u => if isAbs u then u else resolveReference b u) ∧
      (fetchLoop parse net links d fs urls calls fetches).calls =
        calls ++ us.map (fun u => (if isAbs u then u else resolveReference b u, name)) ∧
      (fetchLoop parse net links d fs urls calls fetches).fatal = false := by
  intro links
  induction links with
  | nil =>
    intro us d fs urls calls fetches hmap hb hname
    cases us with
    | nil => simp [fetchLoop]
    | cons u us' => simp at hmap
  | cons l rest ih =>
    intro us d fs urls calls fetches hmap hb hname
    cases us with
    | nil => simp at hmap
    | cons u us' =>
      simp only [List.map_cons] at hmap
      injection hmap with hl hrest
      have hfat : ∀ ru : GoURL, (download net ru d.Name fs).fatal = false :=
        fun ru => download_fatal_ok net ru d.Name fs (hnet ru)
      have hstep : fetchLoop parse net (l :: rest) d fs urls calls fetches =
          fetchLoop parse net rest
            (if l = d.DSC then
              { d with DscPath :=
                (download net (if isAbs u then u else resolveReference b u) d.Name fs).path }
             else d)
            ((download net (if isAbs u then u else resolveReference b u) d.Name fs).fs)
            (urls ++ [if isAbs u then u else resolveReference b u])
            (calls ++ [(if isAbs u then u else resolveReference b u, d.Name)])
            (fetches +
              (download net (if isAbs u then u else resolveReference b u) d.Name fs).fetches) := by
        by_cases habs : isAbs u = true
        · simp only [fetchLoop, hl, hb, habs, if_true, hfat, Bool.false_eq_true, if_false]
        · simp only [fetchLoop, hl, hb, habs, Bool.not_eq_true] at *
          simp only [fetchLoop, hl, hb, habs, Bool.false_eq_true, if_false, hfat]
      rw [hstep]
      have hb' : (if l = d.DSC then
          { d with DscPath :=
            (download net (if isAbs u then u else resolveReference b u) d.Name fs).path }
         else d).BaseURL = some b := by
        by_cases hc : l = d.DSC <;> simp [hc, hb]
      have hname' : (if l = d.DSC then
          { d with DscPath :=
            (download net (if isAbs u then u else resolveReference b u) d.Name fs).path }
         else d).Name = name := by
        by_cases hc : l = d.DSC <;> simp [hc, hname]
      obtain ⟨hu, hc, hf⟩ := ih us' _ _ _ _ _ hrest hb' hname'
      refine ⟨?_, ?_, hf⟩
      · rw [hu]
        simp [List.append_assoc]
      · rw [hc, hname]
        simp [List.append_assoc]

/-! ## Claims about URL resolution and fetch order -/

/-- C5: in the fetch loop, every href that parses successfully is used
unchanged when it is absolute (has a scheme), and otherwise is resolved
against the struct's base URL by `ResolveReference` (the generic URI
resolution algorithm); every resolution uses the one base URL — the
resolved list is a pure map over the parsed hrefs with the constant
base, independent of the filesystem and of the destinations of prior
fetches. -/
theorem claim5_url_resolution (parse : Str → Option GoURL) (net : GoURL → NetResult)
    (d : dpkgSrc) (fs : FS) (b u1 u2 u3 : GoURL)
    (hb : d.BaseURL = some b) (h1 : parse d.DSC = some u1) (h2 : parse d.Debian = some u2)
    (h3 : parse d.Orig = some u3) (hnet : ∀ u, net u = NetResult.ok) :
    (fetchGo parse net d fs).urls =
      [u1, u2, u3].map (fun u => if isAbs u then u else resolveReference b u) ∧
    (∀ u : GoURL, isAbs u = true → (if isAbs u then u else resolveReference b u) = u) ∧
    (∀ u : GoURL, isAbs u = false →
      (if isAbs u then u else resolveReference b u) = resolveReference b u) := by
  refine ⟨?_, fun u hu => by rw [if_pos hu], fun u hu => by rw [if_neg (by simp [hu])]⟩
  have h := (fetchLoop_ok parse net hnet b d.Name [d.DSC, d.Debian, d.Orig] [u1, u2, u3]
    d fs [] [] 0 (by simp [h1, h2, h3]) hb rfl).1
  unfold fetchGo
  rw [h]
  simp

/-- Witness for C5: a concrete fetch with one absolute and two relative
hrefs resolved against the Debian base URL. -/
theorem claim5_url_resolution_witness :
    (fetchGo
        (fun l => if l = "a.dsc".toList then some { path := "a.dsc".toList }
          else if l = "a.debian.tar.xz".toList then some { path := "a.debian.tar.xz".toList }
          else some { scheme := "https".toList, host := "x.org".toList,
                      path := "/a.orig.tar.gz".toList })
        (fun _ => NetResult.ok)
        { Name := "pkg".toList, DSC := "a.dsc".toList, Orig := "a.orig.tar.gz".toList,
          Debian := "a.debian.tar.xz".toList, BaseURL := some debianBase } []).urls =
      [resolveReference debianBase { path := "a.dsc".toList },
       resolveReference debianBase { path := "a.debian.tar.xz".toList },
       { scheme := "https".toList, host := "x.org".toList,
         path := "/a.orig.tar.gz".toList }] := by
  have h := (claim5_url_resolution
    (fun l => if l = "a.dsc".toList then some { path := "a.dsc".toList }
      else if l = "a.debian.tar.xz".toList then some { path := "a.debian.tar.xz".toList }
      else some { scheme := "https".toList, host := "x.org".toList,
                  path := "/a.orig.tar.gz".toList })
    (fun _ => NetResult.ok)
    { Name := "pkg".toList, DSC := "a.dsc".toList, Orig := "a.orig.tar.gz".toList,
      Debian := "a.debian.tar.xz".toList, BaseURL := some debianBase } []
    debianBase { path := "a.dsc".toList } { path := "a.debian.tar.xz".toList }
    { scheme := "https".toList, host := "x.org".toList, path := "/a.orig.tar.gz".toList }
    rfl (by decide) (by decide) (by decide) (fun _ => rfl)).1
  rw [h]
  decide

/-- C7: the fetch step downloads the three classified artifacts in the
order description file, Debian-diff archive, original-source archive,
and every download call passes the package name, so each artifact goes
into the package-named directory. -/
theorem claim7_fetch_order (parse : Str → Option GoURL) (net : GoURL → NetResult)
    (d : dpkgSrc) (fs : FS) (b u1 u2 u3 : GoURL)
    (hb : d.BaseURL = some b) (h1 : parse d.DSC = some u1) (h2 : parse d.Debian = some u2)
    (h3 : parse d.Orig = some u3) (hnet : ∀ u, net u = NetResult.ok) :
    (fetchGo parse net d fs).calls =
      [((if isAbs u1 then u1 else resolveReference b u1), d.Name),
       ((if isAbs u2 then u2 else resolveReference b u2), d.Name),
       ((if isAbs u3 then u3 else resolveReference b u3), d.Name)] ∧
    (∀ c ∈ (fetchGo parse net d fs).calls, c.2 = d.Name) ∧
    (∀ u : GoURL, (buildPath u d.Name).2 = fromSlash d.Name) := by
  have h := (fetchLoop_ok parse net hnet b d.Name [d.DSC, d.Debian, d.Orig] [u1, u2, u3]
    d fs [] [] 0 (by simp [h1, h2, h3]) hb rfl).2.1
  have hcalls : (fetchGo parse net d fs).calls =
      [((if isAbs u1 then u1 else resolveReference b u1), d.Name),
       ((if isAbs u2 then u2 else resolveReference b u2), d.Name),
       ((if isAbs u3 then u3 else resolveReference b u3), d.Name)] := by
    unfold fetchGo
    rw [h]
    simp
  refine ⟨hcalls, ?_, fun u => rfl⟩
  intro c hc
  rw [hcalls] at hc
  simp only [List.mem_cons, List.not_mem_nil, or_false] at hc
  rcases hc with h' | h' | h' <;> rw [h']

/-- Witness for C7: the concrete fetch of the C5 witness makes its three
download calls in description, Debian-diff, original order, each with
the package name. -/
theorem claim7_fetch_order_witness :
    (fetchGo
        (fun l => if l = "a.dsc".toList then some { path := "a.dsc".toList }
          else if l = "a.debian.tar.xz".toList then some { path := "a.debian.tar.xz".toList }
          else some { scheme := "https".toList, host := "x.org".toList,
                      path := "/a.orig.tar.gz".toList })
        (fun _ => NetResult.ok)
        { Name := "pkg".toList, DSC := "a.dsc".toList, Orig := "a.orig.tar.gz".toList,
          Debian := "a.debian.tar.xz".toList, BaseURL := some debianBase } []).calls.map
      Prod.snd = ["pkg".toList, "pkg".toList, "pkg".toList] := by
  have h := (claim7_fetch_order
    (fun l => if l = "a.dsc".toList then some { path := "a.dsc".toList }
      else if l = "a.debian.tar.xz".toList then some { path := "a.debian.tar.xz".toList }
      else some { scheme := "https".toList, host := "x.org".toList,
                  path := "/a.orig.tar.gz".toList })
    (fun _ => NetResult.ok)
    { Name := "pkg".toList, DSC := "a.dsc".toList, Orig := "a.orig.tar.gz".toList,
      Debian := "a.debian.tar.xz".toList, BaseURL := some debianBase } []
    debianBase { path := "a.dsc".toList } { path := "a.debian.tar.xz".toList }
    { scheme := "https".toList, host := "x.org".toList, path := "/a.orig.tar.gz".toList }
    rfl (by decide) (by decide) (by decide) (fun _ => rfl)).1
  rw [h]
  decide

/-! ## Claims about absent roles (C2) and the command surface (C8) -/

/-- Counterexample for C2.  The claim reads the absence of a role as
causing the downstream download and extraction steps for that role to
be skipped.  Running the pipeline on an index page with no matching
hrefs at all (every role absent), the fetch step still issues three
download calls (one per role, each for the empty href resolved to the
base URL), and the extraction step is still invoked — nothing is
skipped.  The parse oracle maps every string to the empty URL, which is
exactly what Go's `url.Parse` returns for the only string parsed here,
the empty href. -/
theorem claim2_counterexample :
    ((commandFetch [] (fun _ => some {}) (fun _ => NetResult.ok) []
        ["foo".toList]).fetchOut.map (fun fo => fo.calls.length)).getD 0 = 3 ∧
    (commandFetch [] (fun _ => some {}) (fun _ => NetResult.ok) []
        ["foo".toList]).extractInvoked.isSome = true := by
  exact ⟨rfl, rfl⟩

/-- C2 as amended: a role with no matching href contributes an empty
href that is still processed — resolved to the base URL and passed to
`download` — but that call performs zero network fetches and raises no
error, because its destination path is the package directory, which the
call itself ensures exists; and the extraction step is not skipped: the
external tool is invoked unconditionally, its file argument computed
from the recorded description path. -/
theorem claim2_absent_roles (parse : Str → Option GoURL) (net : GoURL → NetResult)
    (d : dpkgSrc) (fs : FS) (name : Str)
    (hdsc : d.DSC = []) (hori : d.Orig = []) (hdeb : d.Debian = [])
    (hbase : d.BaseURL = some debianBase) (hnm : d.Name = name)
    (hp : parse [] = some {})
    (hclean : cleanPath (name ++ ['/']) = name) :
    (fetchGo parse net d fs).fetches = 0 ∧
    (fetchGo parse net d fs).fatal = false ∧
    (fetchGo parse net d fs).calls =
      [(debianBase, name), (debianBase, name), (debianBase, name)] ∧
    ((fetchGo parse net d fs).d).DscPath = name ∧
    extractCmd ((fetchGo parse net d fs).d) =
      { tool := "dpkg-source".toList,
        args := ["-x".toList, "--no-check".toList, (filepathSplit name).2],
        dir := fromSlash name } := by
  have hne : name ≠ [] := by
    intro h
    rw [h] at hclean
    exact absurd hclean (by decide)
  have hbp : buildPath debianBase name = (name, name) := by
    unfold buildPath
    have hdrop : debianBase.path.drop
        ((goLastIndexChar debianBase.path '/' + 1).toNat) = [] := by decide
    rw [hdrop]
    unfold goJoin fromSlash
    rw [if_neg hne]
    rw [show name ++ '/' :: ([] : Str) = name ++ ['/'] from rfl, hclean]
  have hr : resolveReference debianBase {} = debianBase := by decide
  have hdl : ∀ fs' : FS, download net debianBase name fs' =
      { path := name, fs := ensureDirExists fs' name, fetches := 0, fatal := false } := by
    intro fs'
    have h2 : fileExists (ensureDirExists fs' (buildPath debianBase name).2)
        (buildPath debianBase name).1 = true := by
      rw [hbp]
      exact fileExists_ensureDir_self fs' name
    rw [download_skip net debianBase name fs' h2, hbp]
  have hstep : ∀ (fs' : FS) (urls : List GoURL) (calls : List (GoURL × Str))
      (fetches : Nat) (dd : dpkgSrc), dd.DSC = [] → dd.BaseURL = some debianBase →
      dd.Name = name → ∀ rest : List Str,
      fetchLoop parse net ([] :: rest) dd fs' urls calls fetches =
        fetchLoop parse net rest { dd with DscPath := name } (ensureDirExists fs' name)
          (urls ++ [debianBase]) (calls ++ [(debianBase, name)]) fetches := by
    intro fs' urls calls fetches dd h1 h2 h3 rest
    have habs : isAbs ({} : GoURL) = false := rfl
    simp only [fetchLoop, hp, habs, Bool.false_eq_true, if_false, h2, hr, h3, hdl]
    simp [h1]
  have hlinks : [d.DSC, d.Debian, d.Orig] = [([] : Str), [], []] := by
    rw [hdsc, hdeb, hori]
  have hd1 : ({ d with DscPath := name } : dpkgSrc).DSC = [] := hdsc
  have hd1b : ({ d with DscPath := name } : dpkgSrc).BaseURL = some debianBase := hbase
  have hd1n : ({ d with DscPath := name } : dpkgSrc).Name = name := hnm
  have hfinal : fetchGo parse net d fs =
      { d := { d with DscPath := name },
        fs := ensureDirExists (ensureDirExists (ensureDirExists fs name) name) name,
        urls := [debianBase, debianBase, debianBase],
        calls := [(debianBase, name), (debianBase, name), (debianBase, name)],
        fetches := 0, fatal := false } := by
    unfold fetchGo
    rw [hlinks]
    rw [hstep fs [] [] 0 d hdsc hbase hnm]
    rw [hstep _ _ _ _ _ hd1 hd1b hd1n]
    rw [hstep _ _ _ _ _ hd1 hd1b hd1n]
    simp [fetchLoop]
  rw [hfinal]
  refine ⟨rfl, rfl, rfl, rfl, ?_⟩
  simp [extractCmd, hnm]

/-- Witness for C2 as amended: instantiated at a concrete package name,
empty filesystem and a failing network oracle (the absent-role download
calls never touch the network, so even a failing network raises no
error). -/
theorem claim2_absent_roles_witness :
    (fetchGo (fun _ => some {}) (fun _ => NetResult.fail)
        { Name := "foo".toList, BaseURL := some debianBase } []).fetches = 0 ∧
    (fetchGo (fun _ => some {}) (fun _ => NetResult.fail)
        { Name := "foo".toList, BaseURL := some debianBase } []).fatal = false := by
  have h := claim2_absent_roles (fun _ => some {}) (fun _ => NetResult.fail)
    { Name := "foo".toList, BaseURL := some debianBase } [] ("foo".toList)
    rfl rfl rfl rfl rfl rfl (by decide)
  exact ⟨h.1, h.2.1⟩

/-- C8 (recording the code bug): with no package-name argument, the
`build` subcommand returns the reported error string `fetch: no package
name provided`, which does not contain the subcommand's own name
`build` (a copy-paste slip in the source); the `fetch` subcommand
returns the same error, which does contain `fetch`, and its error path
performs zero network operations. -/
theorem claim8_missing_argument_errors :
    commandBuild [] = Except.error ("fetch: no package name provided".toList) ∧
    ¬ ("build".toList <:+: "fetch: no package name provided".toList) ∧
    ("fetch".toList <:+: "fetch: no package name provided".toList) ∧
    (commandFetch [] (fun _ => some {}) (fun _ => NetResult.ok) [] []).netOps = 0 ∧
    (commandFetch [] (fun _ => some {}) (fun _ => NetResult.ok) [] []).result =
      Except.error ("fetch: no package name provided".toList) := by
  refine ⟨rfl, by decide, by decide, rfl, rfl⟩

end DpkgBuilder
